import Mathlib

/-!
# Verification of the MedGzuri request-orchestration core

Shallow embedding of the orchestration core of the MedGzuri search API
(`src/api/search.js` and its second in-repo copy `src/unnamed/part_003`):
the bounded LRU cache, the fixed-window rate limiter, the structured-text
extractor (`extractJSON`), the Georgian content-language validator with
its corrective pass, and the front section of the request handler.

JavaScript data is modelled as follows: `Map` objects become association
lists in insertion order (the head is the first key in iteration order,
i.e. the oldest insertion), timestamps and sizes become `Nat`, the brace
depth counter of the extractor becomes `Int` (it can go negative in the
`search.js` copy), and `JSON.parse` becomes a fuel-indexed recursive
descent parser producing the `Json` type below.  Fallible operations
return `Option`.
-/

set_option maxHeartbeats 1000000
set_option maxRecDepth 100000

namespace MedGzuri

/-! ## JSON values

`Json` models the values produced by `JSON.parse`.  Number literals are
kept as their source lexeme (a `String`): no property verified here
depends on numeric interpretation, only on which characters a value can
contribute to the Georgian-script test. -/

inductive Json where
  | null
  | bool (b : Bool)
  | num (lexeme : String)
  | str (s : String)
  | arr (elems : List Json)
  | obj (fields : List (String × Json))
deriving Inhabited

/-! ## A model of `JSON.parse`

Recursive descent over `List Char`.  The fuel argument only bounds the
recursion; `cs.length + 1` is always sufficient because every recursive
call consumes at least one character first. -/

/-- JSON insignificant whitespace (space, tab, line feed, carriage return). -/
def jsonWs (c : Char) : Bool :=
  c == ' ' || c == '\t' || c == '\n' || c == '\r'

def skipJsonWs (cs : List Char) : List Char := cs.dropWhile jsonWs

/-- The value of one hexadecimal digit of a `\uXXXX` escape. -/
def hexVal (c : Char) : Option Nat :=
  let n := c.toNat
  if 0x30 ≤ n && n ≤ 0x39 then some (n - 0x30)
  else if 0x61 ≤ n && n ≤ 0x66 then some (n - 0x57)
  else if 0x41 ≤ n && n ≤ 0x46 then some (n - 0x37)
  else none

/-- Parse the body of a JSON string after the opening quote; returns the
decoded content and the rest of the input after the closing quote.
Surrogate `\uXXXX` escapes are not modelled (no verified input uses
them); raw control characters are rejected as `JSON.parse` does. -/
def parseStringBody : List Char → Option (List Char × List Char)
  | [] => none
  | c :: rest =>
    if c == '"' then some ([], rest)
    else if c == '\\' then
      match rest with
      | [] => none
      | e :: rest2 =>
        if e == '"' then (parseStringBody rest2).map (fun p => ('"' :: p.1, p.2))
        else if e == '\\' then (parseStringBody rest2).map (fun p => ('\\' :: p.1, p.2))
        else if e == '/' then (parseStringBody rest2).map (fun p => ('/' :: p.1, p.2))
        else if e == 'b' then (parseStringBody rest2).map (fun p => ('\x08' :: p.1, p.2))
        else if e == 'f' then (parseStringBody rest2).map (fun p => ('\x0c' :: p.1, p.2))
        else if e == 'n' then (parseStringBody rest2).map (fun p => ('\n' :: p.1, p.2))
        else if e == 'r' then (parseStringBody rest2).map (fun p => ('\r' :: p.1, p.2))
        else if e == 't' then (parseStringBody rest2).map (fun p => ('\t' :: p.1, p.2))
        else if e == 'u' then
          match rest2 with
          | h1 :: h2 :: h3 :: h4 :: rest3 =>
            match hexVal h1, hexVal h2, hexVal h3, hexVal h4 with
            | some a, some b, some c2, some d =>
              let code := ((a * 16 + b) * 16 + c2) * 16 + d
              if 0xD800 ≤ code && code ≤ 0xDFFF then none
              else (parseStringBody rest3).map (fun p => (Char.ofNat code :: p.1, p.2))
            | _, _, _, _ => none
          | _ => none
        else none
    else if c.toNat < 0x20 then none
    else (parseStringBody rest).map (fun p => (c :: p.1, p.2))

/-- Lex a JSON number starting at the head of the input; returns the
lexeme and the rest.  A leading `0` followed by further digits takes
only the `0` (the stray digits then make the surrounding parse fail,
matching the `JSON.parse` grammar). -/
def parseNumberLex (cs : List Char) : Option (List Char × List Char) :=
  let signed := match cs with
    | '-' :: r => (['-'], r)
    | _ => (([] : List Char), cs)
  match signed.2.span Char.isDigit with
  | ([], _) => none
  | (ds, r1) =>
    let ipart := if ds.head? == some '0' && 1 < ds.length
      then (['0'], ds.tail ++ r1) else (ds, r1)
    let fpart := match ipart.2 with
      | '.' :: r2 =>
        match r2.span Char.isDigit with
        | ([], _) => (([] : List Char), ipart.2)
        | (fs, r3) => ('.' :: fs, r3)
      | _ => (([] : List Char), ipart.2)
    let epart := match fpart.2 with
      | 'e' :: r2 =>
        match r2 with
        | '+' :: r3 =>
          match r3.span Char.isDigit with
          | ([], _) => (([] : List Char), fpart.2)
          | (es, r4) => ('e' :: '+' :: es, r4)
        | '-' :: r3 =>
          match r3.span Char.isDigit with
          | ([], _) => (([] : List Char), fpart.2)
          | (es, r4) => ('e' :: '-' :: es, r4)
        | _ =>
          match r2.span Char.isDigit with
          | ([], _) => (([] : List Char), fpart.2)
          | (es, r4) => ('e' :: es, r4)
      | 'E' :: r2 =>
        match r2 with
        | '+' :: r3 =>
          match r3.span Char.isDigit with
          | ([], _) => (([] : List Char), fpart.2)
          | (es, r4) => ('E' :: '+' :: es, r4)
        | '-' :: r3 =>
          match r3.span Char.isDigit with
          | ([], _) => (([] : List Char), fpart.2)
          | (es, r4) => ('E' :: '-' :: es, r4)
        | _ =>
          match r2.span Char.isDigit with
          | ([], _) => (([] : List Char), fpart.2)
          | (es, r4) => ('E' :: es, r4)
      | _ => (([] : List Char), fpart.2)
    some (signed.1 ++ ipart.1 ++ fpart.1 ++ epart.1, epart.2)

mutual

/-- Parse one JSON value (after skipping leading whitespace). -/
def parseValue : Nat → List Char → Option (Json × List Char)
  | 0, _ => none
  | fuel + 1, cs =>
    match skipJsonWs cs with
    | [] => none
    | c :: rest =>
      if c == '{' then
        match skipJsonWs rest with
        | '}' :: r => some (.obj [], r)
        | cs2 => parseMembers fuel cs2 []
      else if c == '[' then
        match skipJsonWs rest with
        | ']' :: r => some (.arr [], r)
        | cs2 => parseElems fuel cs2 []
      else if c == '"' then
        (parseStringBody rest).map (fun p => (.str (String.mk p.1), p.2))
      else if c == 't' then
        match rest with
        | 'r' :: 'u' :: 'e' :: r => some (.bool true, r)
        | _ => none
      else if c == 'f' then
        match rest with
        | 'a' :: 'l' :: 's' :: 'e' :: r => some (.bool false, r)
        | _ => none
      else if c == 'n' then
        match rest with
        | 'u' :: 'l' :: 'l' :: r => some (.null, r)
        | _ => none
      else
        match parseNumberLex (c :: rest) with
        | some (lex, r) => some (.num (String.mk lex), r)
        | none => none

/-- Parse the members of a JSON object after its opening brace
(at least one member remains). -/
def parseMembers : Nat → List Char → List (String × Json) →
    Option (Json × List Char)
  | 0, _, _ => none
  | fuel + 1, cs, acc =>
    match skipJsonWs cs with
    | '"' :: rest =>
      match parseStringBody rest with
      | none => none
      | some (k, r1) =>
        match skipJsonWs r1 with
        | ':' :: r2 =>
          match parseValue fuel r2 with
          | none => none
          | some (v, r3) =>
            match skipJsonWs r3 with
            | ',' :: r4 => parseMembers fuel r4 (acc ++ [(String.mk k, v)])
            | '}' :: r4 => some (.obj (acc ++ [(String.mk k, v)]), r4)
            | _ => none
        | _ => none
    | _ => none

/-- Parse the elements of a JSON array after its opening bracket
(at least one element remains). -/
def parseElems : Nat → List Char → List Json → Option (Json × List Char)
  | 0, _, _ => none
  | fuel + 1, cs, acc =>
    match parseValue fuel cs with
    | none => none
    | some (v, r1) =>
      match skipJsonWs r1 with
      | ',' :: r2 => parseElems fuel r2 (acc ++ [v])
      | ']' :: r2 => some (.arr (acc ++ [v]), r2)
      | _ => none

end

/-- Model of `JSON.parse`: one value, then only whitespace may remain. -/
def jsonParse (s : String) : Option Json :=
  let cs := s.data
  match parseValue (cs.length + 1) cs with
  | some (j, rest) => if (skipJsonWs rest).isEmpty then some j else none
  | none => none

/-! ## JavaScript value helpers

Truthiness, property access and string coercion for parsed JSON values,
as the source's `parsed.items || parsed.meta || ...`, `item.title || ''`
and regex tests use them. -/

/-- Is a JSON number lexeme numerically zero (`0`, `-0.00`, `0e9`, ...)? -/
def numLexIsZero (lex : String) : Bool :=
  let mantissa := (lex.data.dropWhile (· == '-')).takeWhile
    (fun c => c != 'e' && c != 'E')
  mantissa.all (fun c => c == '0' || c == '.')

/-- JavaScript truthiness of a parsed JSON value. -/
def jsTruthy : Json → Bool
  | .null => false
  | .bool b => b
  | .num lex => !numLexIsZero lex
  | .str s => !s.isEmpty
  | .arr _ => true
  | .obj _ => true

/-- Property lookup on an object's field list; `JSON.parse` keeps the
last of duplicate keys, so the last binding wins. -/
def getFieldObj (fields : List (String × Json)) (k : String) : Option Json :=
  ((fields.filter (fun p => p.1 == k)).getLast?).map (·.2)

/-- JavaScript property access `j.k` for the keys the source reads:
only objects carry them (on every other value it is `undefined`). -/
def getField : Json → String → Option Json
  | .obj fs, k => getFieldObj fs k
  | _, _ => none

mutual

/-- JavaScript `String(v)` for parsed JSON values (arrays join their
elements with commas, `null` inside an array stringifies to the empty
string, objects to `[object Object]`).  A number stringifies here as its
source lexeme rather than its re-formatted numeric value; the two can
differ only in digits, sign, `.` and `e`, none of which matter to the
Georgian-script test this coercion feeds. -/
def jsToString : Json → String
  | .null => "null"
  | .bool b => cond b "true" "false"
  | .num lex => lex
  | .str s => s
  | .arr xs => String.intercalate "," (jsToStringElems xs)
  | .obj _ => "[object Object]"

def jsToStringElems : List Json → List String
  | [] => []
  | x :: xs =>
    (match x with
     | .null => ""
     | y => jsToString y) :: jsToStringElems xs

end

/-- The string a regex test sees for `expr || ''`: the empty string when
the value is absent or falsy, otherwise its string coercion. -/
def orEmptyStr (v : Option Json) : String :=
  match v with
  | none => ""
  | some j => if jsTruthy j then jsToString j else ""

/-! ## The extractor's candidate filter

Both copies accept a parse result only if it is truthy and one of the
expected top-level keys `items`, `meta`, `summary`, `sections` holds a
truthy value (`part_003` has this as `tryParseValid`; `search.js`
inlines the same checks, a `TypeError` on `null` property access being
caught by the surrounding `try`). -/

def hasExpectedKey (j : Json) : Bool :=
  (["items", "meta", "summary", "sections"]).any
    (fun k => ((getField j k).map jsTruthy).getD false)

def tryParseValid (s : String) : Option Json :=
  match jsonParse s with
  | some j => if hasExpectedKey j then some j else none
  | none => none

/-! ## Extractor strategy 1: code fence

Model of the `search.js` / `part_003` regex
`` /```(?:json)?\s*(\{[\s\S]*?\})\s*```/ ``: the leftmost match wins;
at a given start the optional `json` tag is taken when present, the lazy
group ends at the first `\x7d` that is followed by whitespace and a
closing fence. -/

/-- The character class of the regex `\s` (JavaScript semantics). -/
def regexWs (c : Char) : Bool :=
  c == ' ' || c == '\t' || c == '\n' || c == '\r' || c == '\x0b' ||
  c == '\x0c' || c.toNat == 0xa0 || c.toNat == 0x1680 ||
  (0x2000 ≤ c.toNat && c.toNat ≤ 0x200a) || c.toNat == 0x2028 ||
  c.toNat == 0x2029 || c.toNat == 0x202f || c.toNat == 0x205f ||
  c.toNat == 0x3000 || c.toNat == 0xfeff

def charAt (cs : List Char) (i : Nat) : Option Char := (cs.drop i).head?

/-- Index just past a maximal run of `\s` characters starting at `i`. -/
def skipWsIdx (cs : List Char) : Nat → Nat → Nat
  | 0, i => i
  | fuel + 1, i =>
    match charAt cs i with
    | some c => if regexWs c then skipWsIdx cs fuel (i + 1) else i
    | none => i

def ticksAt (cs : List Char) (i : Nat) : Bool :=
  charAt cs i == some '`' && charAt cs (i + 1) == some '`' &&
  charAt cs (i + 2) == some '`'

def jsonTagAt (cs : List Char) (i : Nat) : Bool :=
  charAt cs i == some 'j' && charAt cs (i + 1) == some 's' &&
  charAt cs (i + 2) == some 'o' && charAt cs (i + 3) == some 'n'

/-- Does `\s*` followed by a closing fence match at `q`? -/
def fenceCloseAt (cs : List Char) (q : Nat) : Bool :=
  ticksAt cs (skipWsIdx cs (cs.length + 1) q)

/-- The characters of `cs` from index `a` to index `b` exclusive. -/
def sliceChars (cs : List Char) (a b : Nat) : List Char :=
  (cs.take b).drop a

/-- First position `p` at or after `i` where the lazy group can close:
`cs` has a `\x7d` at `p` and a closing fence after it. -/
def findLazyClose (cs : List Char) : Nat → Nat → Option Nat
  | 0, _ => none
  | fuel + 1, p =>
    match charAt cs p with
    | none => none
    | some c =>
      if c == '}' && fenceCloseAt cs (p + 1) then some p
      else findLazyClose cs fuel (p + 1)

/-- Try the fence pattern anchored at start index `i`; on success return
the captured group (braces included). -/
def fenceAttempt (cs : List Char) (i : Nat) : Option (List Char) :=
  if ticksAt cs i then
    let j := i + 3
    let j := if jsonTagAt cs j then j + 4 else j
    let k := skipWsIdx cs (cs.length + 1) j
    if charAt cs k == some '{' then
      match findLazyClose cs (cs.length + 1) (k + 1) with
      | some p => some (sliceChars cs k (p + 1))
      | none => none
    else none
  else none

/-- Leftmost successful start position of the fence pattern. -/
def fenceSearch (cs : List Char) : Nat → Nat → Option (List Char)
  | 0, _ => none
  | fuel + 1, i =>
    if cs.length ≤ i then none
    else
      match fenceAttempt cs i with
      | some g => some g
      | none => fenceSearch cs fuel (i + 1)

def fenceGroup (cs : List Char) : Option (List Char) :=
  fenceSearch cs (cs.length + 1) 0

/-! ## Extractor strategy 2: whole (trimmed) text -/

/-- JavaScript `String.prototype.trim` over the character list. -/
def jsTrimChars (cs : List Char) : List Char :=
  ((cs.dropWhile regexWs).reverse.dropWhile regexWs).reverse

/-! ## Extractor strategy 3: balanced-brace scan

Both copies scan with the same automaton over `(depth, inString,
escape)`; they differ in what happens after a candidate whose parse or
key check fails:

* `search.js` keeps a single pass going, every candidate anchored at the
  first `\x7b` of the whole text (`text.substring(startIdx, i + 1)`);
* `part_003` restarts the scan just past the failed candidate's closing
  brace (`searchFrom = i + 1`), so later candidates start at later
  braces. -/

def indexOfFrom (cs : List Char) (c : Char) (start : Nat) : Option Nat :=
  match (cs.drop start).findIdx? (· == c) with
  | some k => some (start + k)
  | none => none

/-- The scan of `part_003`'s inner `for` loop: the index of the
character that brings the depth back to `0`, or `none` if the scan runs
off the end of the text first. -/
def findCloseAux (cs : List Char) : List Char → Nat → Int → Bool → Bool →
    Option Nat
  | [], _, _, _, _ => none
  | c :: rest, i, depth, inStr, esc =>
    if esc then findCloseAux cs rest (i + 1) depth inStr false
    else if c == '\\' && inStr then findCloseAux cs rest (i + 1) depth inStr true
    else if c == '"' then findCloseAux cs rest (i + 1) depth (!inStr) false
    else if inStr then findCloseAux cs rest (i + 1) depth inStr false
    else if c == '{' then findCloseAux cs rest (i + 1) (depth + 1) false false
    else if c == '}' then
      if depth - 1 = 0 then some i
      else findCloseAux cs rest (i + 1) (depth - 1) false false
    else findCloseAux cs rest (i + 1) depth false false

/-- Strategy 3 of `search.js`: one pass from the first brace, every
candidate substring anchored at that first brace.  The same automaton as
`findCloseAux`, but on a failed candidate the pass continues in place
(so the depth can subsequently go negative). -/
def scanV1Aux (cs : List Char) (s0 : Nat) : List Char → Nat → Int → Bool →
    Bool → Option Json
  | [], _, _, _, _ => none
  | c :: rest, i, depth, inStr, esc =>
    if esc then scanV1Aux cs s0 rest (i + 1) depth inStr false
    else if c == '\\' && inStr then scanV1Aux cs s0 rest (i + 1) depth inStr true
    else if c == '"' then scanV1Aux cs s0 rest (i + 1) depth (!inStr) false
    else if inStr then scanV1Aux cs s0 rest (i + 1) depth inStr false
    else if c == '{' then scanV1Aux cs s0 rest (i + 1) (depth + 1) false false
    else if c == '}' then
      if depth - 1 = 0 then
        match tryParseValid (String.mk (sliceChars cs s0 (i + 1))) with
        | some j => some j
        | none => scanV1Aux cs s0 rest (i + 1) (depth - 1) false false
      else scanV1Aux cs s0 rest (i + 1) (depth - 1) false false
    else scanV1Aux cs s0 rest (i + 1) depth false false

def strategy3V1 (cs : List Char) : Option Json :=
  match indexOfFrom cs '{' 0 with
  | none => none
  | some s0 => scanV1Aux cs s0 (cs.drop s0) s0 0 false false

/-- Strategy 3 of `part_003`: the outer `while` loop.  On a failed
candidate the search resumes just past its closing brace; if the inner
scan ends with nonzero depth the loop breaks.  `searchFrom` strictly
increases, so `cs.length + 1` steps of fuel always suffice. -/
def scanV2Aux (cs : List Char) : Nat → Nat → Option Json
  | 0, _ => none
  | fuel + 1, searchFrom =>
    match indexOfFrom cs '{' searchFrom with
    | none => none
    | some s0 =>
      match findCloseAux cs (cs.drop s0) s0 0 false false with
      | none => none
      | some iclose =>
        match tryParseValid (String.mk (sliceChars cs s0 (iclose + 1))) with
        | some j => some j
        | none => scanV2Aux cs fuel (iclose + 1)

def strategy3V2 (cs : List Char) : Option Json :=
  scanV2Aux cs (cs.length + 1) 0

/-! ## The two `extractJSON` functions -/

/-- Strategies 1 and 2, character-identical in the two copies: fenced
block first, then the whole trimmed text when it starts with a brace. -/
def extractStrat12 (cs : List Char) : Option Json :=
  (match fenceGroup cs with
   | some g => tryParseValid (String.mk g)
   | none => none) <|>
  (let t := jsTrimChars cs
   if t.head? == some '{' then tryParseValid (String.mk t) else none)

/-- The `extractJSON` of `src/api/search.js`. -/
def extractJSON_searchjs (text : String) : Option Json :=
  let cs := text.data
  extractStrat12 cs <|> strategy3V1 cs

/-- The `extractJSON` of `src/unnamed/part_003` (with `tryParseValid`). -/
def extractJSON_part003 (text : String) : Option Json :=
  let cs := text.data
  extractStrat12 cs <|> strategy3V2 cs

/-- The first balanced-brace candidate that both strategy-3 scans try:
the slice from the first `\x7b` of the text to the position where the
shared automaton first returns to depth zero. -/
def firstCandidate (cs : List Char) : Option (List Char) :=
  match indexOfFrom cs '{' 0 with
  | none => none
  | some s0 =>
    match findCloseAux cs (cs.drop s0) s0 0 false false with
    | none => none
    | some iclose => some (sliceChars cs s0 (iclose + 1))

/-- The first balanced-brace candidate, parsed and key-filtered. -/
def firstCandidateValid (cs : List Char) : Option Json :=
  match firstCandidate cs with
  | none => none
  | some cand => tryParseValid (String.mk cand)

/-! ## The in-memory LRU cache

A JavaScript `Map` is an insertion-ordered association list: the head is
the first key in iteration order (`cache.keys().next().value`), i.e. the
least recently inserted position.  `Map.delete` removes the key's
binding (keys are unique, so removing every occurrence is the same
operation); `Map.set` of an existing key updates the value *in place*,
keeping the key's position in iteration order. -/

def CACHE_MAX_SIZE : Nat := 100
def CACHE_TTL_MS : Nat := 30 * 60 * 1000

structure MCacheEntry where
  data : Nat
  ts : Nat
deriving Repr, DecidableEq

/-- Model of `Map.get` on an association list. -/
def alLookup {β : Type} : List (Nat × β) → Nat → Option β
  | [], _ => none
  | p :: rest, k => if p.1 == k then some p.2 else alLookup rest k

/-- Model of `Map.delete` on an association list. -/
def alDelete {β : Type} : List (Nat × β) → Nat → List (Nat × β)
  | [], _ => []
  | p :: rest, k => if p.1 == k then alDelete rest k else p :: alDelete rest k

/-- Model of `Map.has` on an association list. -/
def alHas {β : Type} : List (Nat × β) → Nat → Bool
  | [], _ => false
  | p :: rest, k => p.1 == k || alHas rest k

/-- Model of `Map.set` on an association list: update in place when the key
exists, else append at the tail. -/
def alSet {β : Type} : List (Nat × β) → Nat → β → List (Nat × β)
  | [], k, v => [(k, v)]
  | p :: rest, k, v =>
    if p.1 == k then (k, v) :: rest else p :: alSet rest k v

abbrev MCache := List (Nat × MCacheEntry)

/-- The `cacheGet` function (identical in both copies): miss on absent or expired
keys (removing an expired entry), move a fresh entry to the
most-recently-used tail position and return its data. -/
def cacheGet (c : MCache) (k : Nat) (now : Nat) : Option Nat × MCache :=
  match alLookup c k with
  | none => (none, c)
  | some e =>
    if CACHE_TTL_MS < now - e.ts then (none, alDelete c k)
    else (some e.data, alDelete c k ++ [(k, e)])

/-- The `cacheSet` of `src/api/search.js`: evict the head whenever the map
is at capacity, then `Map.set` — which for an existing key updates in
place *without* refreshing its position. -/
def cacheSet_searchjs (c : MCache) (k v now : Nat) : MCache :=
  let c1 := if CACHE_MAX_SIZE ≤ c.length then c.drop 1 else c
  alSet c1 k ⟨v, now⟩

/-- The `cacheSet` of `src/unnamed/part_003`: delete-then-reinsert for an
existing key (refreshing recency), else evict the head only when at
capacity, then append. -/
def cacheSet_part003 (c : MCache) (k v now : Nat) : MCache :=
  if alHas c k then alDelete c k ++ [(k, ⟨v, now⟩)]
  else if CACHE_MAX_SIZE ≤ c.length then c.drop 1 ++ [(k, ⟨v, now⟩)]
  else c ++ [(k, ⟨v, now⟩)]

/-- One cache operation: a `cacheSet` or a `cacheGet` with its
`Date.now()` timestamp. -/
inductive CacheOp where
  | set (k v t : Nat)
  | get (k t : Nat)
deriving Repr, DecidableEq

def cacheStep_searchjs (c : MCache) : CacheOp → MCache
  | .set k v t => cacheSet_searchjs c k v t
  | .get k t => (cacheGet c k t).2

def cacheStep_part003 (c : MCache) : CacheOp → MCache
  | .set k v t => cacheSet_part003 c k v t
  | .get k t => (cacheGet c k t).2

/-- The cache reached from empty by a sequence of operations,
`search.js` semantics. -/
def runCache_searchjs (ops : List CacheOp) : MCache :=
  ops.foldl cacheStep_searchjs []

/-- The cache reached from empty by a sequence of operations,
`part_003` semantics. -/
def runCache_part003 (ops : List CacheOp) : MCache :=
  ops.foldl cacheStep_part003 []

/-- Does an operation address key `k` (and hence, per the claim's
recency rule, refresh `k` when it is present)? -/
def opTouchesKey : CacheOp → Nat → Bool
  | .set k2 _ _, k => k2 == k
  | .get k2 _, k => k2 == k

/-- Index of the last operation in `ops` addressing key `k`. -/
def lastTouchIdx (ops : List CacheOp) (k : Nat) : Option Nat :=
  ((ops.enum.filter (fun p => opTouchesKey p.2 k)).getLast?).map (·.1)

/-! ### Ghost-instrumented run (`part_003` semantics)

Each entry additionally records the index of the operation that last
refreshed it (inserted it, re-set it, or hit it via `cacheGet`).  The
instrumented run projects onto the plain run, and its entries are
always ordered by strictly increasing last-touch index, which is what
"the head of the map is the least-recently-used entry" means. -/

structure GEntry where
  data : Nat
  ts : Nat
  touch : Nat
deriving Repr, DecidableEq

abbrev GCache := List (Nat × GEntry)

def gGet (g : GCache) (k now cnt : Nat) : GCache :=
  match alLookup g k with
  | none => g
  | some e =>
    if CACHE_TTL_MS < now - e.ts then alDelete g k
    else alDelete g k ++ [(k, { e with touch := cnt })]

def gSet (g : GCache) (k v now cnt : Nat) : GCache :=
  if alHas g k then alDelete g k ++ [(k, ⟨v, now, cnt⟩)]
  else if CACHE_MAX_SIZE ≤ g.length then g.drop 1 ++ [(k, ⟨v, now, cnt⟩)]
  else g ++ [(k, ⟨v, now, cnt⟩)]

def gStep (s : GCache × Nat) (op : CacheOp) : GCache × Nat :=
  match op with
  | .set k v t => (gSet s.1 k v t s.2, s.2 + 1)
  | .get k t => (gGet s.1 k t s.2, s.2 + 1)

def gRunCache (ops : List CacheOp) : GCache × Nat := ops.foldl gStep ([], 0)

def projEntry (e : GEntry) : MCacheEntry := ⟨e.data, e.ts⟩

def projCache (g : GCache) : MCache := g.map (fun p => (p.1, projEntry p.2))

/-! ## The fixed-window rate limiter

`isRateLimited` (identical in both copies).  Client IPs are modelled as
`Nat` keys of the same association-list map model. -/

def RATE_LIMIT_WINDOW_MS : Nat := 60 * 1000
def RATE_LIMIT_MAX : Nat := 20

structure RLEntry where
  windowStart : Nat
  count : Nat
deriving Repr, DecidableEq

abbrev RLMap := List (Nat × RLEntry)

/-- Model of `isRateLimited(ip)` at time `now`: start a fresh window with count 1
when no window exists or the stored window is older than the window
duration; otherwise increment the count and report limited exactly when
the incremented count exceeds the threshold. -/
def isRateLimited (m : RLMap) (ip : Nat) (now : Nat) : Bool × RLMap :=
  match alLookup m ip with
  | none => (false, alSet m ip ⟨now, 1⟩)
  | some e =>
    if RATE_LIMIT_WINDOW_MS < now - e.windowStart then
      (false, alSet m ip ⟨now, 1⟩)
    else
      (RATE_LIMIT_MAX < e.count + 1, alSet m ip ⟨e.windowStart, e.count + 1⟩)

/-- A sequence of `isRateLimited` calls for one client at the given
times; returns the final map and the list of results in order. -/
def rlCalls (m : RLMap) (ip : Nat) : List Nat → RLMap × List Bool
  | [] => (m, [])
  | t :: ts =>
    let r := isRateLimited m ip t
    let rec2 := rlCalls r.2 ip ts
    (rec2.1, r.1 :: rec2.2)

/-! ## The request handler's front section

The part of `handler` from the rate-limit check through input
validation to the point where the pipeline would run (`part_003` lines
262–297; `search.js` performs the same checks with the type-validity
check moved after the field checks, and in both copies the rate-limit
check comes first).  CORS and the method check precede and are not
modelled; the downstream pipeline is cut off at `proceed`. -/

def MAX_TEXT_LENGTH : Nat := 2000
def VALID_TYPES : List String := ["research", "symptoms", "clinics", "report"]

/-- The `data` field map of a request, restricted to the fields the
validator reads.  `age` is kept numeric: a present non-numeric age is
rejected by the source's `isNaN` check just as an out-of-range one, and
a present `age` of `0` is skipped by JavaScript truthiness. -/
structure ReqData where
  diagnosis : Option String := none
  symptoms : Option String := none
  context : Option String := none
  notes : Option String := none
  existingConditions : Option String := none
  medications : Option String := none
  age : Option Int := none
deriving Repr, DecidableEq

structure ReqBody where
  type : Option String := none
  data : Option ReqData := none
deriving Repr, DecidableEq

inductive FrontResult where
  /-- HTTP 429 with the retry-later message. -/
  | tooManyRequests
  /-- HTTP 400 with the given error message. -/
  | badRequest (msg : String)
  /-- Validation passed; the pipeline would continue. -/
  | proceed (ty : String) (d : ReqData)
deriving Repr, DecidableEq

def textFieldsOf (d : ReqData) : List (Option String) :=
  [d.diagnosis, d.symptoms, d.context, d.notes,
   d.existingConditions, d.medications]

def anyFieldTooLong (d : ReqData) : Bool :=
  (textFieldsOf d).any fun f =>
    match f with
    | some s => MAX_TEXT_LENGTH < s.length
    | none => false

/-- The check `data.age && (isNaN(data.age) || data.age < 0 || data.age > 150)`:
an absent or zero age is falsy and skips the check. -/
def ageInvalid (d : ReqData) : Bool :=
  match d.age with
  | none => false
  | some a => a != 0 && (a < 0 || 150 < a)

/-- The validation outcome alone (no rate limiting): the `400` message
produced by the checks of `handler`, or `none` when the request is
valid.  `!type` is JavaScript truthiness, so an empty-string type counts
as missing. -/
def validationError (body : ReqBody) : Option String :=
  match body.type, body.data with
  | some ty, some d =>
    if ty.isEmpty then some "Missing type or data"
    else if !(VALID_TYPES.contains ty) then some "Invalid search type"
    else if anyFieldTooLong d then some "Input too long"
    else if ageInvalid d then some "Invalid age"
    else none
  | _, _ => some "Missing type or data"

/-- The front section of `handler` (`part_003` order): rate-limit check
first — mutating the rate map — then the missing/type/length/age
validation. -/
def handlerFront (m : RLMap) (ip : Nat) (now : Nat) (body : ReqBody) :
    FrontResult × RLMap :=
  let r := isRateLimited m ip now
  if r.1 then (.tooManyRequests, r.2)
  else
    match body.type, body.data with
    | some ty, some d =>
      if ty.isEmpty then (.badRequest "Missing type or data", r.2)
      else if !(VALID_TYPES.contains ty) then
        (.badRequest "Invalid search type", r.2)
      else if anyFieldTooLong d then (.badRequest "Input too long", r.2)
      else if ageInvalid d then (.badRequest "Invalid age", r.2)
      else (.proceed ty d, r.2)
    | _, _ => (.badRequest "Missing type or data", r.2)

/-! ## The Georgian content-language validator and the corrective pass

`claudeAnalyze` after a successful extraction with a non-empty `items`
array (`part_003` lines 744–791; `search.js` lines 585–626 are the same
logic, without a timeout on the corrective call).  The corrective HTTP
call itself is an external effect; its outcome is a parameter. -/

/-- The Georgian-script character class of the source regex
`[Ⴀ-ჿⴀ-⴯]`. -/
def isGeorgianChar (c : Char) : Bool :=
  (0x10A0 ≤ c.toNat && c.toNat ≤ 0x10FF) ||
  (0x2D00 ≤ c.toNat && c.toNat ≤ 0x2D2F)

def hasGeorgian (s : String) : Bool := s.data.any isGeorgianChar

/-- Does an item pass the per-item test
`georgianRegex.test(item.title || '') || georgianRegex.test(item.body || '')`? -/
def itemHasGeorgian (item : Json) : Bool :=
  hasGeorgian (orEmptyStr (getField item "title")) ||
  hasGeorgian (orEmptyStr (getField item "body"))

/-- The `georgianItems.length` of the source filter. -/
def georgianCount (items : List Json) : Nat :=
  (items.filter itemHasGeorgian).length

/-- The trigger `georgianRatio < 0.5` with `georgianRatio = georgianCount / length`:
stated exactly over naturals.  (The floating-point quotient of two
naturals of this size rounds to `0.5` or beyond only when the exact
quotient is at least `0.5`, so the comparison agrees with the source.) -/
def needsCorrection (items : List Json) : Bool :=
  2 * georgianCount items < items.length

/-- The guard `fixParsed && fixParsed.items && fixParsed.items.length > 0`:
the items value must be truthy and have a positive JavaScript `length`
(arrays and strings carry one; on other values `.length` is undefined
and the comparison is false). -/
def jsLenPos : Json → Bool
  | .arr xs => 0 < xs.length
  | .str s => 0 < s.length
  | _ => false

def itemsNonempty (j : Json) : Bool :=
  match getField j "items" with
  | some v => jsTruthy v && jsLenPos v
  | none => false

/-- Outcome of the corrective translation `fetch`: a thrown error
(network failure / abort), or a response with its `ok` status and body
text. -/
inductive FetchOutcome where
  | fetchError
  | response (ok : Bool) (bodyText : String)
deriving Repr, DecidableEq

/-- The corrective pass of `claudeAnalyze`, entered with a parse result
whose `items` is a non-empty array: when the Georgian ratio is below
the threshold, issue the corrective call; adopt its extraction only when
the call succeeded and the re-extraction has a non-empty items list;
in every other case return the original `parsed`. -/
def georgianFixStep (parsed : Json) (outcome : FetchOutcome) : Json :=
  match getField parsed "items" with
  | some (.arr items) =>
    if 0 < items.length then
      if needsCorrection items then
        match outcome with
        | .fetchError => parsed
        | .response ok fixText =>
          if ok then
            match extractJSON_part003 fixText with
            | some fixParsed =>
              if itemsNonempty fixParsed then fixParsed else parsed
            | none => parsed
          else parsed
      else parsed
    else parsed
  | _ => parsed

/-- Does a corrective-call outcome count as failed in the sense of the
spec: the call threw, returned a non-success status, or its body fails
extraction or yields no non-empty items list? -/
def fixOutcomeFails : FetchOutcome → Bool
  | .fetchError => true
  | .response ok bodyText =>
    !ok ||
      (match extractJSON_part003 bodyText with
       | some fixParsed => !itemsNonempty fixParsed
       | none => true)

/-! ## Upstream call budgets

The timeouts configured on the upstream calls, read off the
`AbortController`/`setTimeout` pairs of each copy.  `none` means the
call has no timeout at all. -/

/-- The two in-repo copies of the search module. -/
inductive SearchModule where
  | searchjs
  | part003
deriving Repr, DecidableEq

/-- Timeout of the main structuring call of `claudeAnalyze`
(45 s in both copies). -/
def claudeAnalyzeTimeoutMs : SearchModule → Option Nat
  | .searchjs => some 45000
  | .part003 => some 45000

/-- Timeout of the corrective translation call: `part_003` aborts it
after 30 s via its own `fixController`; the corrective `fetch` of
`search.js` has no `AbortController` and no timeout. -/
def georgianFixTimeoutMs : SearchModule → Option Nat
  | .searchjs => none
  | .part003 => some 30000

/-! ## Concrete inputs used by counterexamples and witnesses -/

/-- Fill the cache with keys 0–99, then re-set key 1 (which the claim's
recency rule makes most recent), then insert two fresh keys. -/
def c1ops : List CacheOp :=
  ((List.range 100).map (fun i => CacheOp.set i i 0)) ++
    [CacheOp.set 1 7 0, CacheOp.set 100 0 0, CacheOp.set 101 0 0]

/-- 100 inserts of distinct keys: a full cache. -/
def c1fullOps : List CacheOp := (List.range 100).map (fun i => CacheOp.set i i 0)

/-! # Theorems

First a toolkit of lemmas about the association-list map model, then the
claims. -/

theorem alLookup_alDelete_self {β : Type} (c : List (Nat × β)) (k : Nat) :
    alLookup (alDelete c k) k = none := by
  induction c with
  | nil => rfl
  | cons p rest ih => cases hpk : (p.1 == k) <;> simp [alDelete, alLookup, hpk, ih]

theorem alDelete_length_le {β : Type} (c : List (Nat × β)) (k : Nat) :
    (alDelete c k).length ≤ c.length := by
  induction c with
  | nil => exact Nat.le_refl _
  | cons p rest ih =>
    cases hpk : (p.1 == k) <;> simp [alDelete, hpk] <;> omega

theorem alHas_eq_isSome {β : Type} (c : List (Nat × β)) (k : Nat) :
    alHas c k = (alLookup c k).isSome := by
  induction c with
  | nil => rfl
  | cons p rest ih => cases hpk : (p.1 == k) <;> simp [alHas, alLookup, hpk, ih]

theorem alDelete_length_lt_of_alHas {β : Type} (c : List (Nat × β)) (k : Nat)
    (h : alHas c k = true) : (alDelete c k).length < c.length := by
  induction c with
  | nil => simp [alHas] at h
  | cons p rest ih =>
    cases hpk : (p.1 == k) with
    | true =>
      simp only [alDelete, hpk, if_pos]
      exact Nat.lt_succ_of_le (alDelete_length_le rest k)
    | false =>
      simp only [alHas, hpk, Bool.false_or] at h
      simp only [alDelete, hpk]
      simpa using Nat.succ_lt_succ (ih h)

theorem alDelete_length_lt_of_alLookup {β : Type} (c : List (Nat × β))
    (k : Nat) (e : β) (h : alLookup c k = some e) :
    (alDelete c k).length < c.length := by
  apply alDelete_length_lt_of_alHas
  rw [alHas_eq_isSome, h]
  rfl

/-! ## Cache size lemmas -/

theorem cacheGet_length_le (c : MCache) (k now : Nat) :
    ((cacheGet c k now).2).length ≤ c.length := by
  unfold cacheGet
  cases hl : alLookup c k with
  | none => exact Nat.le_refl _
  | some e =>
    dsimp only
    by_cases hexp : CACHE_TTL_MS < now - e.ts
    · rw [if_pos hexp]
      exact alDelete_length_le c k
    · rw [if_neg hexp]
      have := alDelete_length_lt_of_alLookup c k e hl
      simp only [List.length_append, List.length_cons, List.length_nil]
      omega

theorem cacheSet_part003_length_le (c : MCache) (k v now : Nat)
    (h : c.length ≤ CACHE_MAX_SIZE) :
    (cacheSet_part003 c k v now).length ≤ CACHE_MAX_SIZE := by
  have hCM : CACHE_MAX_SIZE = 100 := rfl
  unfold cacheSet_part003
  by_cases hhas : alHas c k = true
  · rw [if_pos hhas]
    have := alDelete_length_lt_of_alHas c k hhas
    simp only [List.length_append, List.length_cons, List.length_nil]
    omega
  · rw [if_neg hhas]
    by_cases hfull : CACHE_MAX_SIZE ≤ c.length
    · rw [if_pos hfull]
      simp only [List.length_append, List.length_drop, List.length_cons,
        List.length_nil]
      omega
    · rw [if_neg hfull]
      simp only [List.length_append, List.length_cons, List.length_nil]
      omega

theorem runCache_part003_length_le (ops : List CacheOp) :
    (runCache_part003 ops).length ≤ CACHE_MAX_SIZE := by
  suffices h : ∀ (ops : List CacheOp) (c : MCache),
      c.length ≤ CACHE_MAX_SIZE →
      (ops.foldl cacheStep_part003 c).length ≤ CACHE_MAX_SIZE by
    exact h ops [] (by simp [CACHE_MAX_SIZE])
  intro ops
  induction ops with
  | nil => intro c hc; simpa using hc
  | cons op rest ih =>
    intro c hc
    simp only [List.foldl_cons]
    apply ih
    cases op with
    | set k v t => exact cacheSet_part003_length_le c k v t hc
    | get k t => exact Nat.le_trans (cacheGet_length_le c k t) hc

/-! ## Claim C9: cache TTL expiry -/

/-- Claim C9: an entry stored at time `t` is reported absent (and
removed) by any `cacheGet` later than `t + CACHE_TTL_MS`, and no
`cacheGet` ever returns data whose entry's age exceeds the TTL. -/
theorem cacheGet_ttl_expiry (c : MCache) (k v t now : Nat)
    (hstored : alLookup c k = some ⟨v, t⟩)
    (hlate : t + CACHE_TTL_MS < now) :
    (cacheGet c k now).1 = none ∧
    alLookup ((cacheGet c k now).2) k = none ∧
    (∀ (c2 : MCache) (k2 now2 d : Nat), (cacheGet c2 k2 now2).1 = some d →
      ∃ e, alLookup c2 k2 = some e ∧ now2 - e.ts ≤ CACHE_TTL_MS ∧ e.data = d) := by
  have hcond : CACHE_TTL_MS < now - t := by omega
  refine ⟨?_, ?_, ?_⟩
  · unfold cacheGet
    rw [hstored]
    simp [hcond]
  · unfold cacheGet
    rw [hstored]
    dsimp only
    rw [if_pos hcond]
    exact alLookup_alDelete_self c k
  · intro c2 k2 now2 d h
    unfold cacheGet at h
    cases hl : alLookup c2 k2 with
    | none => rw [hl] at h; simp at h
    | some e =>
      rw [hl] at h
      dsimp only at h
      by_cases hexp : CACHE_TTL_MS < now2 - e.ts
      · rw [if_pos hexp] at h; simp at h
      · rw [if_neg hexp] at h
        simp only at h
        exact ⟨e, rfl, Nat.le_of_not_lt hexp, Option.some_injective _ h⟩

/-- Witness for C9 at a concrete cache, key and time. -/
theorem cacheGet_ttl_expiry_witness :
    (cacheGet [(5, ⟨77, 1000⟩)] 5 (1000 + CACHE_TTL_MS + 1)).1 = none ∧
    alLookup ((cacheGet [(5, ⟨77, 1000⟩)] 5 (1000 + CACHE_TTL_MS + 1)).2) 5 = none ∧
    (∀ (c2 : MCache) (k2 now2 d : Nat), (cacheGet c2 k2 now2).1 = some d →
      ∃ e, alLookup c2 k2 = some e ∧ now2 - e.ts ≤ CACHE_TTL_MS ∧ e.data = d) :=
  cacheGet_ttl_expiry [(5, ⟨77, 1000⟩)] 5 77 1000 (1000 + CACHE_TTL_MS + 1)
    (by decide) (by decide)

/-! ## Projection of the ghost run onto the plain run -/

theorem alLookup_projCache (g : GCache) (k : Nat) :
    alLookup (projCache g) k = (alLookup g k).map projEntry := by
  induction g with
  | nil => rfl
  | cons p rest ih =>
    cases hpk : (p.1 == k) <;>
      simp [projCache, alLookup, hpk] <;> simpa [projCache] using ih

theorem alDelete_projCache (g : GCache) (k : Nat) :
    alDelete (projCache g) k = projCache (alDelete g k) := by
  induction g with
  | nil => rfl
  | cons p rest ih =>
    cases hpk : (p.1 == k) <;>
      simp [projCache, alDelete, hpk] <;> simpa [projCache] using ih

theorem alHas_projCache (g : GCache) (k : Nat) :
    alHas (projCache g) k = alHas g k := by
  induction g with
  | nil => rfl
  | cons p rest ih =>
    cases hpk : (p.1 == k) <;>
      simp [projCache, alHas, hpk] <;> simpa [projCache] using ih

theorem projCache_append (a b : GCache) :
    projCache (a ++ b) = projCache a ++ projCache b := by
  simp [projCache]

theorem projCache_drop (g : GCache) (n : Nat) :
    projCache (g.drop n) = (projCache g).drop n := by
  simp [projCache, List.map_drop]

theorem projCache_length (g : GCache) : (projCache g).length = g.length := by
  simp [projCache]

theorem proj_gGet (g : GCache) (k now cnt : Nat) :
    projCache (gGet g k now cnt) = (cacheGet (projCache g) k now).2 := by
  unfold gGet cacheGet
  cases hl : alLookup g k with
  | none =>
    have hl2 : alLookup (projCache g) k = none := by
      rw [alLookup_projCache, hl]; rfl
    rw [hl2]
  | some e =>
    have hl2 : alLookup (projCache g) k = some (projEntry e) := by
      rw [alLookup_projCache, hl]; rfl
    rw [hl2]
    dsimp only [projEntry]
    by_cases hexp : CACHE_TTL_MS < now - e.ts
    · rw [if_pos hexp, if_pos hexp]
      exact (alDelete_projCache g k).symm
    · rw [if_neg hexp, if_neg hexp]
      rw [projCache_append, alDelete_projCache]
      rfl

theorem proj_gSet (g : GCache) (k v now cnt : Nat) :
    projCache (gSet g k v now cnt) = cacheSet_part003 (projCache g) k v now := by
  unfold gSet cacheSet_part003
  rw [alHas_projCache, projCache_length]
  by_cases hhas : alHas g k = true
  · rw [if_pos hhas, if_pos hhas, projCache_append, alDelete_projCache]
    rfl
  · rw [if_neg hhas, if_neg hhas]
    by_cases hfull : CACHE_MAX_SIZE ≤ g.length
    · rw [if_pos hfull, if_pos hfull, projCache_append, projCache_drop]
      rfl
    · rw [if_neg hfull, if_neg hfull, projCache_append]
      rfl

theorem proj_gStep (g : GCache) (n : Nat) (op : CacheOp) :
    projCache ((gStep (g, n) op).1) = cacheStep_part003 (projCache g) op := by
  cases op with
  | set k v t => exact proj_gSet g k v t n
  | get k t => exact proj_gGet g k t n

theorem proj_gRun (ops : List CacheOp) :
    projCache (gRunCache ops).1 = runCache_part003 ops := by
  suffices h : ∀ (ops : List CacheOp) (g : GCache) (n : Nat),
      projCache ((ops.foldl gStep (g, n)).1) =
        ops.foldl cacheStep_part003 (projCache g) by
    simpa using h ops [] 0
  intro ops
  induction ops with
  | nil => intro g n; rfl
  | cons op rest ih =>
    intro g n
    simp only [List.foldl_cons]
    have h1 : projCache ((rest.foldl gStep
        ((gStep (g, n) op).1, (gStep (g, n) op).2)).1) =
        rest.foldl cacheStep_part003 (projCache (gStep (g, n) op).1) :=
      ih _ _
    rw [proj_gStep] at h1
    exact h1

/-! ## The last-touch invariant of the ghost run -/

/-- Entries in touch order: the left one was refreshed strictly earlier. -/
def touchLt (a b : Nat × GEntry) : Prop := a.2.touch < b.2.touch

theorem alDelete_sublist {β : Type} (c : List (Nat × β)) (k : Nat) :
    List.Sublist (alDelete c k) c := by
  induction c with
  | nil => exact List.Sublist.refl _
  | cons p rest ih =>
    cases hpk : (p.1 == k) with
    | true => simpa [alDelete, hpk] using ih.cons p
    | false => simpa [alDelete, hpk] using ih.cons₂ p

theorem touchInv_gGet (g : GCache) (k now cnt : Nat)
    (hs : g.Pairwise touchLt) (hb : ∀ p ∈ g, p.2.touch < cnt) :
    (gGet g k now cnt).Pairwise touchLt ∧
      ∀ p ∈ gGet g k now cnt, p.2.touch < cnt + 1 := by
  unfold gGet
  cases hl : alLookup g k with
  | none =>
    exact ⟨hs, fun p hp => Nat.lt_succ_of_lt (hb p hp)⟩
  | some e =>
    dsimp only
    by_cases hexp : CACHE_TTL_MS < now - e.ts
    · rw [if_pos hexp]
      refine ⟨List.Pairwise.sublist (alDelete_sublist g k) hs, fun p hp => ?_⟩
      exact Nat.lt_succ_of_lt (hb p ((alDelete_sublist g k).subset hp))
    · rw [if_neg hexp]
      constructor
      · rw [List.pairwise_append]
        refine ⟨List.Pairwise.sublist (alDelete_sublist g k) hs, List.pairwise_singleton _ _, ?_⟩
        intro a ha b hb2
        rw [List.mem_singleton] at hb2
        subst hb2
        exact hb a ((alDelete_sublist g k).subset ha)
      · intro p hp
        rw [List.mem_append, List.mem_singleton] at hp
        cases hp with
        | inl hp => exact Nat.lt_succ_of_lt (hb p ((alDelete_sublist g k).subset hp))
        | inr hp => subst hp; exact Nat.lt_succ_self cnt

theorem touchInv_gSet (g : GCache) (k v now cnt : Nat)
    (hs : g.Pairwise touchLt) (hb : ∀ p ∈ g, p.2.touch < cnt) :
    (gSet g k v now cnt).Pairwise touchLt ∧
      ∀ p ∈ gSet g k v now cnt, p.2.touch < cnt + 1 := by
  have happ : ∀ (g2 : GCache), List.Sublist g2 g →
      (g2 ++ [(k, (⟨v, now, cnt⟩ : GEntry))]).Pairwise touchLt ∧
        ∀ p ∈ g2 ++ [(k, (⟨v, now, cnt⟩ : GEntry))], p.2.touch < cnt + 1 := by
    intro g2 hsub
    constructor
    · rw [List.pairwise_append]
      refine ⟨List.Pairwise.sublist hsub hs, List.pairwise_singleton _ _, ?_⟩
      intro a ha b hb2
      rw [List.mem_singleton] at hb2
      subst hb2
      exact hb a (hsub.subset ha)
    · intro p hp
      rw [List.mem_append, List.mem_singleton] at hp
      cases hp with
      | inl hp => exact Nat.lt_succ_of_lt (hb p (hsub.subset hp))
      | inr hp => subst hp; exact Nat.lt_succ_self cnt
  unfold gSet
  by_cases hhas : alHas g k = true
  · rw [if_pos hhas]
    exact happ _ (alDelete_sublist g k)
  · rw [if_neg hhas]
    by_cases hfull : CACHE_MAX_SIZE ≤ g.length
    · rw [if_pos hfull]
      exact happ _ (List.drop_sublist 1 g)
    · rw [if_neg hfull]
      exact happ _ (List.Sublist.refl g)

theorem touchInv_gRun (ops : List CacheOp) :
    (gRunCache ops).1.Pairwise touchLt ∧
      ∀ p ∈ (gRunCache ops).1, p.2.touch < (gRunCache ops).2 := by
  suffices h : ∀ (ops : List CacheOp) (g : GCache) (n : Nat),
      g.Pairwise touchLt → (∀ p ∈ g, p.2.touch < n) →
      (ops.foldl gStep (g, n)).1.Pairwise touchLt ∧
        ∀ p ∈ (ops.foldl gStep (g, n)).1,
          p.2.touch < (ops.foldl gStep (g, n)).2 by
    exact h ops [] 0 (List.Pairwise.nil) (by simp)
  intro ops
  induction ops with
  | nil => intro g n hs hb; exact ⟨hs, hb⟩
  | cons op rest ih =>
    intro g n hs hb
    simp only [List.foldl_cons]
    have hstep : ((gStep (g, n) op).1.Pairwise touchLt) ∧
        ∀ p ∈ (gStep (g, n) op).1, p.2.touch < (gStep (g, n) op).2 := by
      cases op with
      | set k v t => exact touchInv_gSet g k v t n hs hb
      | get k t => exact touchInv_gGet g k t n hs hb
    exact ih (gStep (g, n) op).1 (gStep (g, n) op).2 hstep.1 hstep.2

/-! ## Claim C1 -/

/-- Claim C1 counterexample (against the `search.js` copy): after
filling the cache with keys 0–99, re-setting the already-present key 1,
and inserting keys 100 and 101, key 1 — whose last touching operation
has index 100 — has been evicted while key 2 — last touched at index
2 — is still present.  So the `search.js` `cacheSet` does not refresh
an existing key's recency and the entry it evicts at capacity is not
the least-recently-used one. -/
theorem searchjs_cacheSet_evicts_recently_refreshed_key :
    alHas (runCache_searchjs c1ops) 1 = false ∧
    alHas (runCache_searchjs c1ops) 2 = true ∧
    lastTouchIdx c1ops 1 = some 100 ∧
    lastTouchIdx c1ops 2 = some 2 ∧ (2 : Nat) < 100 := by
  decide

/-- Claim C1 (amended): under the `part_003` `cacheSet`, starting from
empty the cache never exceeds `CACHE_MAX_SIZE` entries; a `cacheSet` of
a fresh key at capacity evicts exactly the head of the map; the
ghost-instrumented run (whose step refreshes an entry's `touch` index on
every `cacheSet` of the key and every `cacheGet` hit, i.e. the claim's
recency rule) projects onto the plain run; and the head of the
instrumented map always carries the minimal last-touch index — the head
is the least-recently-used entry. -/
theorem part003_cache_bounded_and_evicts_lru
    (ops : List CacheOp) (k v now : Nat)
    (hfull : (runCache_part003 ops).length = CACHE_MAX_SIZE)
    (habsent : alHas (runCache_part003 ops) k = false) :
    (∀ ops2 : List CacheOp, (runCache_part003 ops2).length ≤ CACHE_MAX_SIZE) ∧
    cacheSet_part003 (runCache_part003 ops) k v now
      = (runCache_part003 ops).drop 1 ++ [(k, ⟨v, now⟩)] ∧
    projCache (gRunCache ops).1 = runCache_part003 ops ∧
    (∀ hd ∈ (gRunCache ops).1.head?, ∀ p ∈ (gRunCache ops).1,
      hd.2.touch ≤ p.2.touch) := by
  refine ⟨runCache_part003_length_le, ?_, proj_gRun ops, ?_⟩
  · unfold cacheSet_part003
    rw [if_neg (by simp [habsent]), if_pos (Nat.le_of_eq hfull.symm)]
  · intro hd hhd p hp
    have hpw := (touchInv_gRun ops).1
    cases hG : (gRunCache ops).1 with
    | nil => rw [hG] at hhd; simp at hhd
    | cons q tl =>
      rw [hG] at hhd hp hpw
      simp only [List.head?_cons, Option.mem_def, Option.some.injEq] at hhd
      subst hhd
      rcases List.mem_cons.mp hp with hpq | hptl
      · subst hpq; exact Nat.le_refl _
      · exact Nat.le_of_lt (List.rel_of_pairwise_cons hpw hptl)

/-- Witness for C1 at a concretely full cache (keys 0–99) and the fresh
key 100. -/
theorem part003_cache_bounded_and_evicts_lru_witness :
    (∀ ops2 : List CacheOp, (runCache_part003 ops2).length ≤ CACHE_MAX_SIZE) ∧
    cacheSet_part003 (runCache_part003 c1fullOps) 100 0 0
      = (runCache_part003 c1fullOps).drop 1 ++ [(100, ⟨0, 0⟩)] ∧
    projCache (gRunCache c1fullOps).1 = runCache_part003 c1fullOps ∧
    (∀ hd ∈ (gRunCache c1fullOps).1.head?, ∀ p ∈ (gRunCache c1fullOps).1,
      hd.2.touch ≤ p.2.touch) :=
  part003_cache_bounded_and_evicts_lru c1fullOps 100 0 0 (by decide) (by decide)

/-! ## Rate limiter lemmas -/

theorem alLookup_alSet_self {β : Type} (m : List (Nat × β)) (k : Nat) (v : β) :
    alLookup (alSet m k v) k = some v := by
  induction m with
  | nil => simp [alSet, alLookup]
  | cons p rest ih =>
    cases hpk : (p.1 == k) <;> simp [alSet, alLookup, hpk, ih]

/-- A rate-limit check inside the stored window increments the count in
place and reports limited exactly when the new count exceeds the
threshold. -/
theorem isRateLimited_within (m : RLMap) (ip t c u : Nat)
    (hl : alLookup m ip = some ⟨t, c⟩)
    (hu : u ≤ t + RATE_LIMIT_WINDOW_MS) :
    isRateLimited m ip u =
      (decide (RATE_LIMIT_MAX < c + 1), alSet m ip ⟨t, c + 1⟩) := by
  unfold isRateLimited
  rw [hl]
  dsimp only
  rw [if_neg (by omega)]

/-- A rate-limit check after the stored window has expired restarts the
window with count 1 and reports not limited. -/
theorem isRateLimited_reset (m : RLMap) (ip t c u : Nat)
    (hl : alLookup m ip = some ⟨t, c⟩)
    (hu : t + RATE_LIMIT_WINDOW_MS < u) :
    isRateLimited m ip u = (false, alSet m ip ⟨u, 1⟩) := by
  unfold isRateLimited
  rw [hl]
  dsimp only
  rw [if_pos (by omega)]

/-- Consecutive same-client checks, all within the stored window: the
`i`-th of them sees count `c + i + 1`, and the final map holds the
original window start with the accumulated count. -/
theorem rlCalls_within (ip t : Nat) :
    ∀ (ts : List Nat) (m : RLMap) (c : Nat),
      alLookup m ip = some ⟨t, c⟩ →
      (∀ u ∈ ts, u ≤ t + RATE_LIMIT_WINDOW_MS) →
      (rlCalls m ip ts).2 =
        (List.range ts.length).map
          (fun i => decide (RATE_LIMIT_MAX < c + i + 1)) ∧
      alLookup (rlCalls m ip ts).1 ip = some ⟨t, c + ts.length⟩ := by
  intro ts
  induction ts with
  | nil => intro m c hl _; exact ⟨rfl, by simpa using hl⟩
  | cons u rest ih =>
    intro m c hl hin
    have hstep := isRateLimited_within m ip t c u hl (hin u (by simp))
    have hl2 : alLookup (alSet m ip ⟨t, c + 1⟩) ip = some ⟨t, c + 1⟩ :=
      alLookup_alSet_self m ip _
    obtain ⟨hres, hfin⟩ := ih (alSet m ip ⟨t, c + 1⟩) (c + 1) hl2
      (fun v hv => hin v (List.mem_cons_of_mem u hv))
    unfold rlCalls
    rw [hstep]
    dsimp only
    constructor
    · rw [hres, List.length_cons, List.range_succ_eq_map, List.map_cons,
        List.map_map]
      have hfun : ((fun i => decide (RATE_LIMIT_MAX < c + i + 1)) ∘ Nat.succ)
          = fun i => decide (RATE_LIMIT_MAX < c + 1 + i + 1) := by
        funext i
        exact decide_eq_decide.mpr (by omega)
      rw [hfun]
    · rw [hfin, show c + 1 + rest.length = c + (rest.length + 1) by omega,
        List.length_cons]

/-! ## Claim C4: rate-limiter fixed window -/

/-- Claim C4: a fresh client's first call at time `t` is not limited;
its next `RATE_LIMIT_MAX` calls, all within `t + RATE_LIMIT_WINDOW_MS`,
are not limited except for the last — call `RATE_LIMIT_MAX + 1` overall,
which is limited; and a call strictly after the window is again not
limited and restarts the window with count 1. -/
theorem rate_limiter_fixed_window (ip t t2 : Nat) (ts : List Nat)
    (hn : ts.length = RATE_LIMIT_MAX)
    (hin : ∀ u ∈ ts, u ≤ t + RATE_LIMIT_WINDOW_MS)
    (ht2 : t + RATE_LIMIT_WINDOW_MS < t2) :
    (isRateLimited [] ip t).1 = false ∧
    (rlCalls (isRateLimited [] ip t).2 ip ts).2
      = List.replicate (RATE_LIMIT_MAX - 1) false ++ [true] ∧
    (isRateLimited (rlCalls (isRateLimited [] ip t).2 ip ts).1 ip t2).1
      = false ∧
    alLookup
      (isRateLimited (rlCalls (isRateLimited [] ip t).2 ip ts).1 ip t2).2 ip
      = some ⟨t2, 1⟩ := by
  have hl1 : alLookup (isRateLimited [] ip t).2 ip = some ⟨t, 1⟩ :=
    alLookup_alSet_self ([] : RLMap) ip (⟨t, 1⟩ : RLEntry)
  obtain ⟨hres, hfin⟩ := rlCalls_within ip t ts (isRateLimited [] ip t).2 1 hl1 hin
  have hreset := isRateLimited_reset _ ip t (1 + ts.length) t2 hfin ht2
  refine ⟨rfl, ?_, ?_, ?_⟩
  · rw [hres, hn]
    decide
  · rw [hreset]
  · rw [hreset]
    exact alLookup_alSet_self _ ip _

/-- Witness for C4: client 0 starting at time 0, twenty further calls
at time 0, and a final call just past the window. -/
theorem rate_limiter_fixed_window_witness :
    (isRateLimited [] 0 0).1 = false ∧
    (rlCalls (isRateLimited [] 0 0).2 0 (List.replicate 20 0)).2
      = List.replicate (RATE_LIMIT_MAX - 1) false ++ [true] ∧
    (isRateLimited (rlCalls (isRateLimited [] 0 0).2 0 (List.replicate 20 0)).1 0
      (RATE_LIMIT_WINDOW_MS + 1)).1 = false ∧
    alLookup (isRateLimited
      (rlCalls (isRateLimited [] 0 0).2 0 (List.replicate 20 0)).1 0
      (RATE_LIMIT_WINDOW_MS + 1)).2 0 = some ⟨RATE_LIMIT_WINDOW_MS + 1, 1⟩ :=
  rate_limiter_fixed_window 0 0 (RATE_LIMIT_WINDOW_MS + 1)
    (List.replicate 20 0) (by decide) (by decide) (by decide)

/-! ## Claim C2: rate limiting versus validation order -/

/-- Characterisation of `handlerFront` by the rate check and `validationError`:
the rate check runs first and its updated map is kept whatever the
validation outcome; a limited client is answered 429 before any
validation; otherwise the validation error (when any) is answered. -/
theorem handlerFront_eq (m : RLMap) (ip now : Nat) (body : ReqBody) :
    handlerFront m ip now body =
      ((if (isRateLimited m ip now).1 then FrontResult.tooManyRequests
        else
          match validationError body with
          | some msg => FrontResult.badRequest msg
          | none =>
            FrontResult.proceed (body.type.getD "") (body.data.getD {})),
       (isRateLimited m ip now).2) := by
  obtain ⟨oty, od⟩ := body
  unfold handlerFront validationError
  dsimp only
  by_cases hlim : (isRateLimited m ip now).1 = true
  · rw [if_pos hlim, if_pos hlim]
  · rw [if_neg hlim, if_neg hlim]
    cases oty with
    | none => cases od <;> rfl
    | some ty =>
      cases od with
      | none => rfl
      | some d =>
        dsimp only
        by_cases h1 : ty.isEmpty = true
        · rw [if_pos h1, if_pos h1]
        · rw [if_neg h1, if_neg h1]
          by_cases h2 : (!VALID_TYPES.contains ty) = true
          · rw [if_pos h2, if_pos h2]
          · rw [if_neg h2, if_neg h2]
            by_cases h3 : anyFieldTooLong d = true
            · rw [if_pos h3, if_pos h3]
            · rw [if_neg h3, if_neg h3]
              by_cases h4 : ageInvalid d = true
              · rw [if_pos h4, if_pos h4]
              · rw [if_neg h4, if_neg h4]
                rfl

/-- Claim C2 counterexample: after a client exhausts its window with 21
calls, a request that fails validation (missing `data`) is rejected with
the throttling signal 429, not the client-error signal; and even from a
fresh client, a request failing validation still creates/increments its
rate window — the rate-limit check runs before input validation. -/
theorem handler_validates_after_rate_check_counterexample :
    validationError ⟨some "research", none⟩ = some "Missing type or data" ∧
    (handlerFront (rlCalls [] 0 (List.replicate 21 0)).1 0 0
      ⟨some "research", none⟩).1 = FrontResult.tooManyRequests ∧
    (handlerFront [] 0 0 ⟨some "research", none⟩).2 = [(0, ⟨0, 1⟩)] := by
  decide

/-- Claim C2 (amended): the rate-limit check precedes input validation:
the rate map resulting from `handlerFront` is always the map updated by
`isRateLimited` — an invalid request still counts against the client's
window — and a request failing validation is answered 429 when the
client is limited, 400 with the validation message otherwise. -/
theorem handler_rate_check_precedes_validation (m : RLMap) (ip now : Nat)
    (body : ReqBody) (msg : String)
    (hinv : validationError body = some msg) :
    (handlerFront m ip now body).2 = (isRateLimited m ip now).2 ∧
    ((isRateLimited m ip now).1 = true →
      (handlerFront m ip now body).1 = .tooManyRequests) ∧
    ((isRateLimited m ip now).1 = false →
      (handlerFront m ip now body).1 = .badRequest msg) := by
  rw [handlerFront_eq]
  refine ⟨rfl, fun h => ?_, fun h => ?_⟩
  · simp [h]
  · simp [h, hinv]

/-- Witness for C2 at a fresh client and a body with missing data. -/
theorem handler_rate_check_precedes_validation_witness :
    (handlerFront [] 0 0 ⟨some "research", none⟩).2
      = (isRateLimited [] 0 0).2 ∧
    ((isRateLimited [] 0 0).1 = true →
      (handlerFront [] 0 0 ⟨some "research", none⟩).1 = .tooManyRequests) ∧
    ((isRateLimited [] 0 0).1 = false →
      (handlerFront [] 0 0 ⟨some "research", none⟩).1
        = .badRequest "Missing type or data") :=
  handler_rate_check_precedes_validation [] 0 0 ⟨some "research", none⟩
    "Missing type or data" (by decide)

/-! ## Claim C8: language-validator threshold -/

/-- Claim C8: for a non-empty items list, when fewer than half of the
items contain a target-script (Georgian) character in their title or
body — twice the count of Georgian items is below the item count — the
corrective pass is triggered; when every item contains one, it is not. -/
theorem validator_threshold (items : List Json) (hne : items ≠ []) :
    (2 * georgianCount items < items.length → needsCorrection items = true) ∧
    ((∀ it ∈ items, itemHasGeorgian it = true) →
      needsCorrection items = false) := by
  constructor
  · intro h
    exact decide_eq_true h
  · intro hall
    have hcount : georgianCount items = items.length := by
      unfold georgianCount
      rw [List.filter_eq_self.mpr hall]
    unfold needsCorrection
    rw [hcount]
    exact decide_eq_false (by omega)

/-- Witness for C8 at a fully Georgian single-item list. -/
theorem validator_threshold_witness :
    (2 * georgianCount [Json.obj [("title", Json.str "ქართული")]]
        < [Json.obj [("title", Json.str "ქართული")]].length →
      needsCorrection [Json.obj [("title", Json.str "ქართული")]] = true) ∧
    ((∀ it ∈ [Json.obj [("title", Json.str "ქართული")]],
        itemHasGeorgian it = true) →
      needsCorrection [Json.obj [("title", Json.str "ქართული")]] = false) :=
  validator_threshold [Json.obj [("title", Json.str "ქართული")]] (by simp)

/-! ## Claim C6: corrective-pass fallback -/

/-- Claim C6: when the language-ratio check triggers the corrective
translation call and that call fails — it throws, returns a non-success
status, or its response fails extraction or yields no non-empty items
list — `claudeAnalyze` returns the original uncorrected `parsed`
result. -/
theorem corrective_pass_returns_original (parsed : Json) (items : List Json)
    (hitems : getField parsed "items" = some (.arr items))
    (hne : 0 < items.length)
    (htrig : needsCorrection items = true)
    (outcome : FetchOutcome)
    (hfail : fixOutcomeFails outcome = true) :
    georgianFixStep parsed outcome = parsed := by
  unfold georgianFixStep
  rw [hitems]
  dsimp only
  rw [if_pos hne, if_pos htrig]
  cases outcome with
  | fetchError => rfl
  | response ok text =>
    unfold fixOutcomeFails at hfail
    cases ok with
    | false => dsimp only; simp
    | true =>
      dsimp only at hfail ⊢
      rw [if_pos rfl]
      simp only [Bool.not_true, Bool.false_or] at hfail
      cases hx : extractJSON_part003 text with
      | none => rfl
      | some fixParsed =>
        rw [hx] at hfail
        dsimp only at hfail
        have hb : itemsNonempty fixParsed = false := by
          cases hb2 : itemsNonempty fixParsed
          · rfl
          · rw [hb2] at hfail; simp at hfail
        simp [hb]

/-- Witness for C6: a triggered corrective pass whose call succeeded
but whose response contains no JSON — the original result is kept. -/
theorem corrective_pass_returns_original_witness :
    georgianFixStep
      (Json.obj [("meta", Json.str "m"),
        ("items", Json.arr [Json.obj [("title", Json.str "English only")]])])
      (FetchOutcome.response true "no json here")
    = Json.obj [("meta", Json.str "m"),
        ("items", Json.arr [Json.obj [("title", Json.str "English only")]])] :=
  corrective_pass_returns_original
    (Json.obj [("meta", Json.str "m"),
      ("items", Json.arr [Json.obj [("title", Json.str "English only")]])])
    [Json.obj [("title", Json.str "English only")]]
    rfl (by decide) rfl (FetchOutcome.response true "no json here") rfl

/-! ## Claim C7: corrective-call budget -/

/-- Claim C7 counterexample: in the `search.js` copy the corrective
translation `fetch` has no `AbortController` and no timeout at all, so
it is not bounded by its own budget. -/
theorem searchjs_corrective_call_has_no_timeout :
    georgianFixTimeoutMs SearchModule.searchjs = none := rfl

/-- Claim C7 (amended): in the `part_003` copy the corrective call has
its own 30-second timeout, independent of and shorter than the
45-second timeout of the original structuring call (which both copies
set); the `search.js` copy's corrective call has no timeout. -/
theorem part003_corrective_call_budget :
    georgianFixTimeoutMs SearchModule.part003 = some 30000 ∧
    claudeAnalyzeTimeoutMs SearchModule.part003 = some 45000 ∧
    claudeAnalyzeTimeoutMs SearchModule.searchjs = some 45000 ∧
    georgianFixTimeoutMs SearchModule.searchjs = none ∧
    30000 < 45000 := by
  refine ⟨rfl, rfl, rfl, rfl, by omega⟩

/-! ## Extractor scan lemmas -/

/-- When the shared automaton reaches depth zero at `iclose` and the
candidate anchored at `s0` is accepted, the `search.js` single-pass scan
returns that candidate's parse: up to the first depth-zero close, the
two scans take exactly the same branches. -/
theorem scanV1Aux_of_findClose (cs : List Char) (s0 : Nat) :
    ∀ (rest : List Char) (i : Nat) (depth : Int) (inStr esc : Bool)
      (iclose : Nat) (j : Json),
      findCloseAux cs rest i depth inStr esc = some iclose →
      tryParseValid (String.mk (sliceChars cs s0 (iclose + 1))) = some j →
      scanV1Aux cs s0 rest i depth inStr esc = some j := by
  intro rest
  induction rest with
  | nil =>
    intro i depth inStr esc iclose j hfc _
    simp [findCloseAux] at hfc
  | cons c rest2 ih =>
    intro i depth inStr esc iclose j hfc hvalid
    unfold findCloseAux at hfc
    unfold scanV1Aux
    by_cases h1 : esc = true
    · rw [if_pos h1] at hfc ⊢
      exact ih _ _ _ _ _ _ hfc hvalid
    · rw [if_neg h1] at hfc ⊢
      by_cases h2 : (c == '\\' && inStr) = true
      · rw [if_pos h2] at hfc ⊢
        exact ih _ _ _ _ _ _ hfc hvalid
      · rw [if_neg h2] at hfc ⊢
        by_cases h3 : (c == '"') = true
        · rw [if_pos h3] at hfc ⊢
          exact ih _ _ _ _ _ _ hfc hvalid
        · rw [if_neg h3] at hfc ⊢
          by_cases h4 : inStr = true
          · rw [if_pos h4] at hfc ⊢
            exact ih _ _ _ _ _ _ hfc hvalid
          · rw [if_neg h4] at hfc ⊢
            by_cases h5 : (c == '{') = true
            · rw [if_pos h5] at hfc ⊢
              exact ih _ _ _ _ _ _ hfc hvalid
            · rw [if_neg h5] at hfc ⊢
              by_cases h6 : (c == '}') = true
              · rw [if_pos h6] at hfc ⊢
                by_cases h7 : depth - 1 = 0
                · rw [if_pos h7] at hfc ⊢
                  have hic : i = iclose := by
                    simpa using hfc
                  rw [hic, hvalid]
                · rw [if_neg h7] at hfc ⊢
                  exact ih _ _ _ _ _ _ hfc hvalid
              · rw [if_neg h6] at hfc ⊢
                exact ih _ _ _ _ _ _ hfc hvalid

/-- The `fuel + 1` unfolding of the `part_003` outer loop. -/
theorem scanV2Aux_succ (cs : List Char) (fuel searchFrom : Nat) :
    scanV2Aux cs (fuel + 1) searchFrom =
      match indexOfFrom cs '{' searchFrom with
      | none => none
      | some s0 =>
        match findCloseAux cs (cs.drop s0) s0 0 false false with
        | none => none
        | some iclose =>
          match tryParseValid (String.mk (sliceChars cs s0 (iclose + 1))) with
          | some j => some j
          | none => scanV2Aux cs fuel (iclose + 1) := rfl

/-! ## Claim C3: extractor skip-and-continue -/

/-- Claim C3 counterexample (against the `search.js` copy): on the text
`\x7b\x7d \x7b"meta":"x"\x7d` — an irrelevant empty object followed by
a valid result object — the `search.js` `extractJSON` returns absent:
its strategy-3 scan anchors every candidate substring at the first
brace of the text instead of continuing from past the failed
candidate's end. -/
theorem searchjs_extractJSON_misses_later_object :
    extractJSON_searchjs "\x7b\x7d \x7b\"meta\":\"x\"\x7d" = none := by
  rfl

/-- Claim C3 (amended): on such texts the `part_003` `extractJSON` —
which resumes its scan just past a failed candidate's closing brace —
does return the later valid object, while the `search.js` copy returns
absent; shown at `\x7b\x7d \x7b"meta":"x"\x7d` and at a variant with
prose between the two objects. -/
theorem part003_extractJSON_skips_and_continues :
    extractJSON_part003 "\x7b\x7d \x7b\"meta\":\"x\"\x7d"
      = some (Json.obj [("meta", Json.str "x")]) ∧
    extractJSON_part003 "\x7b\x7d noise \x7b\"items\":[\"a\"]\x7d"
      = some (Json.obj [("items", Json.arr [Json.str "a"])]) ∧
    extractJSON_searchjs "\x7b\x7d noise \x7b\"items\":[\"a\"]\x7d" = none := by
  refine ⟨rfl, rfl, rfl⟩

/-! ## Claim C5: escaped quotes in the balanced-brace scan -/

/-- Claim C5 counterexample: on the spec's own test input
`\x7b"body":"contains \"\x7d\" here"\x7d` both copies of `extractJSON`
return absent, not the parsed object: the candidate is delimited and
parsed correctly, but the object's only key is `body`, which is not one
of the expected top-level keys, so the filter rejects it. -/
theorem extractJSON_rejects_keyless_escaped_quote_object :
    extractJSON_searchjs "\x7b\"body\":\"contains \\\"\x7d\\\" here\"\x7d"
      = none ∧
    extractJSON_part003 "\x7b\"body\":\"contains \\\"\x7d\\\" here\"\x7d"
      = none := by
  refine ⟨rfl, rfl⟩

/-- Claim C5 (amended): the brace counting itself does not misfire on
backslash-escaped quotes and brace characters inside strings: on the
same text carrying an expected `meta` key (prefixed with prose so that
only the balanced-brace scan can fire), both copies return the
correctly parsed object, including the embedded `"\x7d"` in the body
string. -/
theorem extractJSON_handles_escaped_quotes :
    extractJSON_searchjs
      "response: \x7b\"meta\":\"m\",\"body\":\"contains \\\"\x7d\\\" here\"\x7d"
      = some (Json.obj [("meta", Json.str "m"),
          ("body", Json.str "contains \"\x7d\" here")]) ∧
    extractJSON_part003
      "response: \x7b\"meta\":\"m\",\"body\":\"contains \\\"\x7d\\\" here\"\x7d"
      = some (Json.obj [("meta", Json.str "m"),
          ("body", Json.str "contains \"\x7d\" here")]) := by
  refine ⟨rfl, rfl⟩

/-! ## Claim C10: equivalence of the two extractors -/

/-- Claim C10 counterexample: the two `extractJSON` functions are not
extensionally equal: on `\x7b\x7d\x7b"summary":"s"\x7d` the `part_003`
copy returns the later object while the `search.js` copy returns
absent. -/
theorem extractors_not_extensionally_equal :
    extractJSON_searchjs "\x7b\x7d\x7b\"summary\":\"s\"\x7d" = none ∧
    extractJSON_part003 "\x7b\x7d\x7b\"summary\":\"s\"\x7d"
      = some (Json.obj [("summary", Json.str "s")]) := by
  refine ⟨rfl, rfl⟩

/-- Claim C10 (amended): the two `extractJSON` functions agree on every
input on which the shared fence or whole-text strategy succeeds, and on
every input whose first balanced-brace candidate is accepted; they
differ only when the first candidate is rejected (`part_003` may then
succeed where `search.js` returns absent). -/
theorem extractors_agree_when_first_candidate_accepted (text : String)
    (h : (extractStrat12 text.data).isSome = true ∨
         (firstCandidateValid text.data).isSome = true) :
    extractJSON_searchjs text = extractJSON_part003 text := by
  unfold extractJSON_searchjs extractJSON_part003
  dsimp only
  cases h12 : extractStrat12 text.data with
  | some j => simp
  | none =>
    cases h with
    | inl hs => rw [h12] at hs; simp at hs
    | inr hfc =>
      unfold firstCandidateValid firstCandidate at hfc
      cases hs0 : indexOfFrom text.data '{' 0 with
      | none => rw [hs0] at hfc; simp at hfc
      | some s0 =>
        rw [hs0] at hfc
        dsimp only at hfc
        cases hcl : findCloseAux text.data (text.data.drop s0) s0 0 false false with
        | none => rw [hcl] at hfc; simp at hfc
        | some iclose =>
          rw [hcl] at hfc
          dsimp only at hfc
          cases hv : tryParseValid
              (String.mk (sliceChars text.data s0 (iclose + 1))) with
          | none => rw [hv] at hfc; simp at hfc
          | some j =>
            have h1 : strategy3V1 text.data = some j := by
              unfold strategy3V1
              rw [hs0]
              exact scanV1Aux_of_findClose text.data s0 _ _ _ _ _ _ j hcl hv
            have h2 : strategy3V2 text.data = some j := by
              unfold strategy3V2
              rw [scanV2Aux_succ, hs0]
              dsimp only
              rw [hcl]
              dsimp only
              rw [hv]
            rw [h1, h2]

/-- Witness for C10 at a text whose whole-text strategy (and first
candidate) is accepted. -/
theorem extractors_agree_when_first_candidate_accepted_witness :
    extractJSON_searchjs "\x7b\"meta\":1\x7d"
      = extractJSON_part003 "\x7b\"meta\":1\x7d" :=
  extractors_agree_when_first_candidate_accepted "\x7b\"meta\":1\x7d"
    (Or.inl rfl)

end MedGzuri
